import Mathlib

/-!
Shallow embedding of the PolicyReady client-side streaming subsystem:
the event decoder of `analyzeStream` (frontend/src/lib/api.ts), the
job event loop of `handleFileSelect` (frontend/src/app/page.tsx and the
phased variant), and the history store (`saveToHistory` / `getHistory`).
Machine strings are modelled as Lean `String` where only carried, and as
byte lists (`List Nat`) inside the decoder, where the source splits the
raw byte stream on the newline byte 10.
-/

set_option maxRecDepth 4096

/-! ### Data model (frontend/src/types, part_007) -/

/-- `ComplianceStatus`: "MET" | "NOT_MET" | "PARTIAL". -/
inductive ComplianceStatus where
  | met
  | notMet
  | partialStatus
deriving DecidableEq, Repr

/-- `ComplianceAnswer` record. The JS `confidence` number is carried, never
computed with; it is modelled as a rational. -/
structure ComplianceAnswer where
  question : String
  status : ComplianceStatus
  evidence : Option String
  source : Option String
  page : Option Int
  confidence : Rat
  reasoning : String
deriving DecidableEq, Repr

/-- `AnalysisProgress` record; the source field `partial` is rendered here
as `partialCount`. -/
structure AnalysisProgress where
  answered : Nat
  total : Nat
  not_met : Nat
  met : Nat
  partialCount : Nat
deriving DecidableEq, Repr

/-- The `SSEEvent` tagged union of frontend/src/types. -/
inductive SSEEvent where
  | status (message : String)
  | questions (questions : List String) (total : Nat)
  | answer (index : Int) (answer : ComplianceAnswer) (progress : AnalysisProgress)
  | complete (total met not_met partialCount : Nat)
  | error (message : String)
deriving DecidableEq, Repr

/-! ### Event decoder (analyzeStream, frontend/src/lib/api.ts)

The reader loop accumulates bytes into `buffer`, splits on `"\n"`,
keeps the final fragment (`lines.pop()`) as the new buffer, and parses
every complete line: lines starting with `"data: "` are JSON-parsed
(a parse failure is silently skipped), other lines are ignored.
The JSON parser itself is an external library routine and is a parameter
`jp` of the embedding.  Newline is byte 10; a UTF-8 continuation byte is
never 10, so splitting the byte stream before decoding is equivalent
to `TextDecoder` + `String.split`. -/

/-- JS `buffer.split("\n")` on a byte list: always returns a non-empty
list of newline-free segments. -/
def splitOnNl : List Nat → List (List Nat)
  | [] => [[]]
  | b :: rest =>
    if b = 10 then [] :: splitOnNl rest
    else
      match splitOnNl rest with
      | [] => [[b]]
      | h :: t => (b :: h) :: t

/-- The bytes of the `"data: "` marker checked by `line.startsWith("data: ")`. -/
def dataMarker : List Nat := [100, 97, 116, 97, 58, 32]

/-- One line of the stream: `if (line.startsWith("data: ")) JSON.parse(line.slice(6))`,
with the `catch {}` that skips a malformed record folded into the `Option`. -/
def parseLine {E : Type} (jp : List Nat → Option E) (line : List Nat) : Option E :=
  if line.take 6 = dataMarker then jp (line.drop 6) else none

/-- The decoder loop of `analyzeStream`: for each arriving chunk, append to
the carried buffer, split on newlines, keep the trailing fragment, and yield
the parse of every complete line.  Bytes still in the buffer when the source
reports `done` are discarded, exactly as in the source. -/
def processChunks {E : Type} (pl : List Nat → Option E) (buf : List Nat) :
    List (List Nat) → List E
  | [] => []
  | c :: cs =>
    let parts := splitOnNl (buf ++ c)
    parts.dropLast.filterMap pl ++ processChunks pl (parts.getLastD []) cs

/-- Newline-terminated framing of a record list, as the server emits it. -/
def encodeRecords (ls : List (List Nat)) : List Nat :=
  (ls.map (· ++ [10])).flatten

theorem splitOnNl_ne_nil (xs : List Nat) : splitOnNl xs ≠ [] := by
  induction xs with
  | nil => simp [splitOnNl]
  | cons b rest ih =>
    simp only [splitOnNl]
    split
    · simp
    · cases h : splitOnNl rest <;> simp

theorem splitOnNl_eq_single {xs : List Nat} (h : 10 ∉ xs) : splitOnNl xs = [xs] := by
  induction xs with
  | nil => rfl
  | cons b rest ih =>
    simp only [List.mem_cons, not_or] at h
    simp only [splitOnNl, if_neg (by omega : ¬b = 10), ih h.2]

/-- Prepend a fragment onto the head of a segment list (the glue step of
split-append). -/
def glueHead (pre : List Nat) : List (List Nat) → List (List Nat)
  | [] => [pre]
  | h :: t => (pre ++ h) :: t

theorem splitOnNl_cons_nl (rest : List Nat) :
    splitOnNl (10 :: rest) = [] :: splitOnNl rest := by
  simp [splitOnNl]

theorem splitOnNl_cons_ne {b : Nat} (hb : ¬b = 10) (rest : List Nat) :
    splitOnNl (b :: rest) = glueHead [b] (splitOnNl rest) := by
  simp only [splitOnNl, if_neg hb]
  cases h : splitOnNl rest <;> simp [glueHead]

theorem splitOnNl_append (xs ys : List Nat) :
    splitOnNl (xs ++ ys) =
      (splitOnNl xs).dropLast ++ glueHead ((splitOnNl xs).getLastD []) (splitOnNl ys) := by
  induction xs with
  | nil =>
    cases h : splitOnNl ys with
    | nil => exact absurd h (splitOnNl_ne_nil ys)
    | cons yh yt =>
      simp [splitOnNl, glueHead]
      exact h
  | cons b rest ih =>
    by_cases hb : b = 10
    · subst hb
      rw [List.cons_append, splitOnNl_cons_nl, splitOnNl_cons_nl, ih]
      cases h : splitOnNl rest with
      | nil => exact absurd h (splitOnNl_ne_nil rest)
      | cons sh st =>
        simp [List.getLastD_cons, List.dropLast_cons_of_ne_nil (List.cons_ne_nil sh st)]
    · rw [List.cons_append, splitOnNl_cons_ne hb, splitOnNl_cons_ne hb, ih]
      cases h : splitOnNl rest with
      | nil => exact absurd h (splitOnNl_ne_nil rest)
      | cons sh st =>
        cases st with
        | nil =>
          cases hy : splitOnNl ys with
          | nil => exact absurd hy (splitOnNl_ne_nil ys)
          | cons yh yt =>
            simp [glueHead, List.getLastD_cons, List.append_assoc]
        | cons s2 st2 =>
          simp [glueHead, List.getLastD_cons,
            List.dropLast_cons_of_ne_nil (List.cons_ne_nil s2 st2)]

theorem getLastD_splitOnNl (xs : List Nat) : 10 ∉ (splitOnNl xs).getLastD [] := by
  induction xs with
  | nil => simp [splitOnNl]
  | cons b rest ih =>
    by_cases hb : b = 10
    · subst hb
      rw [splitOnNl_cons_nl]
      cases h : splitOnNl rest with
      | nil => exact absurd h (splitOnNl_ne_nil rest)
      | cons sh st =>
        rw [h] at ih
        simpa [List.getLastD_cons] using ih
    · rw [splitOnNl_cons_ne hb]
      cases h : splitOnNl rest with
      | nil => exact absurd h (splitOnNl_ne_nil rest)
      | cons sh st =>
        rw [h] at ih
        cases st with
        | nil =>
          simp only [glueHead, List.getLastD_cons, List.getLastD_nil] at ih ⊢
          simp only [List.singleton_append, List.mem_cons, not_or]
          exact ⟨fun hh => hb hh.symm, ih⟩
        | cons s2 st2 => simpa [glueHead, List.getLastD_cons] using ih

/-- Single-pass decoding of a fully assembled byte string: all complete
lines, parsed. -/
def decodeAll {E : Type} (pl : List Nat → Option E) (content : List Nat) : List E :=
  (splitOnNl content).dropLast.filterMap pl

theorem processChunks_eq_decodeAll {E : Type} (pl : List Nat → Option E)
    (cs : List (List Nat)) :
    ∀ buf : List Nat, 10 ∉ buf →
      processChunks pl buf cs = decodeAll pl (buf ++ cs.flatten) := by
  induction cs with
  | nil =>
    intro buf hbuf
    simp [processChunks, decodeAll, splitOnNl_eq_single hbuf]
  | cons c cs ih =>
    intro buf hbuf
    have hlast := getLastD_splitOnNl (buf ++ c)
    have hsingle := splitOnNl_eq_single hlast
    cases hy : splitOnNl cs.flatten with
    | nil => exact absurd hy (splitOnNl_ne_nil _)
    | cons yh yt =>
      simp only [processChunks, ih _ hlast, decodeAll, List.flatten_cons,
        ← List.append_assoc]
      rw [splitOnNl_append (buf ++ c) cs.flatten,
        splitOnNl_append ((splitOnNl (buf ++ c)).getLastD []) cs.flatten,
        hsingle, hy]
      simp only [glueHead, List.dropLast_single, List.nil_append,
        List.getLastD_cons, List.getLastD_nil]
      rw [List.dropLast_append_of_ne_nil _ (List.cons_ne_nil _ _),
        List.filterMap_append]

/-! ### History store (src/lib/history.ts, part_006)

`localStorage` is modelled as the deserialized collection itself (a list of
entries, newest first); whether a `setItem` call succeeds is an oracle
`canStore` on the value being written (a quota rejection is a thrown
exception, modelled as `Except.error`; the prior stored value survives a
failed write).  `crypto.randomUUID()` and `new Date().toISOString()` are
external inputs, passed in as the `newId` / `stamp` arguments. -/

/-- `AnalysisHistoryItem`; the source field `partial` is rendered as
`partialCount`.  `answers : Record<number, ComplianceAnswer>` is an
association list with JS object-key semantics. -/
structure AnalysisHistoryItem where
  id : String
  filename : String
  timestamp : String
  totalQuestions : Nat
  met : Nat
  notMet : Nat
  partialCount : Nat
  questions : List String
  answers : List (Int × ComplianceAnswer)
deriving DecidableEq, Repr

/-- The argument of `saveToHistory`: `Omit<AnalysisHistoryItem, "id" | "timestamp">`. -/
structure HistoryDraft where
  filename : String
  totalQuestions : Nat
  met : Nat
  notMet : Nat
  partialCount : Nat
  questions : List String
  answers : List (Int × ComplianceAnswer)
deriving DecidableEq, Repr

def MAX_HISTORY_ITEMS : Nat := 50

/-- `getHistory()`: returns the stored collection (the
parse-failure-yields-`[]` branch is outside the claims considered here,
so the store state is already the parsed list). -/
def getHistory (store : List AnalysisHistoryItem) : List AnalysisHistoryItem :=
  store

/-- `{...item, id: crypto.randomUUID(), timestamp: new Date().toISOString()}`. -/
def mkHistoryItem (newId stamp : String) (d : HistoryDraft) : AnalysisHistoryItem :=
  { id := newId, filename := d.filename, timestamp := stamp,
    totalQuestions := d.totalQuestions, met := d.met, notMet := d.notMet,
    partialCount := d.partialCount, questions := d.questions, answers := d.answers }

/-- `saveToHistory`: prepend the new entry, cap at 50, write; on a write
rejection retry once with the 10 newest; the retry write is NOT inside a
try/catch in the source, so its failure escapes as an exception
(`Except.error`). -/
def saveToHistory (newId stamp : String)
    (canStore : List AnalysisHistoryItem → Bool)
    (store : List AnalysisHistoryItem) (d : HistoryDraft) :
    Except Unit (AnalysisHistoryItem × List AnalysisHistoryItem) :=
  let history := getHistory store
  let newItem := mkHistoryItem newId stamp d
  let updated := (newItem :: history).take MAX_HISTORY_ITEMS
  if canStore updated then .ok (newItem, updated)
  else
    let trimmed := updated.take 10
    if canStore trimmed then .ok (newItem, trimmed)
    else .error ()

/-- Sequential appends through `saveToHistory`; a thrown append leaves the
stored collection unchanged, as the failed `setItem` does. -/
def appendRun (canStore : List AnalysisHistoryItem → Bool) :
    List (String × String × HistoryDraft) → List AnalysisHistoryItem →
      List AnalysisHistoryItem
  | [], store => store
  | (u, ts, d) :: rest, store =>
    match saveToHistory u ts canStore store d with
    | .ok (_, store') => appendRun canStore rest store'
    | .error _ => appendRun canStore rest store

/-! ### Job event loop (handleFileSelect, frontend/src/app/page.tsx) -/

/-- The UI `AnalysisState`. -/
inductive AnalysisState where
  | idle
  | analyzing
  | complete
  | error
deriving DecidableEq, Repr

/-- JS object-key assignment `m[k] = v`: replace an existing key in place,
else append. -/
def setKey (k : Int) (v : ComplianceAnswer) :
    List (Int × ComplianceAnswer) → List (Int × ComplianceAnswer)
  | [] => [(k, v)]
  | (k', v') :: rest =>
    if k' = k then (k, v) :: rest else (k', v') :: setKey k v rest

/-- JS object-key lookup `m[k]`. -/
def getKey (k : Int) : List (Int × ComplianceAnswer) → Option ComplianceAnswer
  | [] => none
  | (k', v') :: rest => if k' = k then some v' else getKey k rest

/-- External inputs of the event loop: the UUID and timestamp supplies
consumed by `saveToHistory` (indexed by how many saves have run) and the
storage-write oracle. -/
structure Env where
  uuidOf : Nat → String
  nowOf : Nat → String
  canStore : List AnalysisHistoryItem → Bool

/-- The mutable state touched by `handleFileSelect`'s event loop: the React
state setters plus the local `finalQuestions`/`finalAnswers`/`finalProgress`
mirrors (which the source keeps identical to the React state) and the
persisted history collection.  `aborted` records that an exception escaped
the loop body (only the un-caught retry write of `saveToHistory` can throw
there), ending the `for await` iteration. -/
structure HomeState where
  analysisState : AnalysisState
  status : String
  questions : List String
  answers : List (Int × ComplianceAnswer)
  progress : Option AnalysisProgress
  errorMsg : Option String
  currentFilename : String
  store : List AnalysisHistoryItem
  saves : Nat
  aborted : Bool
deriving DecidableEq, Repr

/-- State set up by `handleFileSelect` before the loop starts. -/
def initHomeState (filename : String) (store : List AnalysisHistoryItem) :
    HomeState :=
  { analysisState := .analyzing, status := "Starting analysis...",
    questions := [], answers := [], progress := none, errorMsg := none,
    currentFilename := filename, store := store, saves := 0, aborted := false }

/-- One iteration of the `switch (event.type)` of
frontend/src/app/page.tsx `handleFileSelect`. -/
def processEvent (env : Env) (s : HomeState) : SSEEvent → HomeState
  | .status m => { s with status := m }
  | .questions qs t =>
    { s with questions := qs,
             progress := some
               { answered := 0, total := t, met := 0, not_met := 0,
                 partialCount := 0 } }
  | .answer i a pr =>
    { s with answers := setKey i a s.answers, progress := some pr }
  | .complete t m nm p =>
    let forced : AnalysisProgress :=
      { answered := t, total := t, met := m, not_met := nm, partialCount := p }
    let s1 := { s with analysisState := .complete, progress := some forced }
    let d : HistoryDraft :=
      { filename := s.currentFilename, totalQuestions := t, met := m,
        notMet := nm, partialCount := p, questions := s.questions,
        answers := s.answers }
    match saveToHistory (env.uuidOf s.saves) (env.nowOf s.saves)
        env.canStore s.store d with
    | .ok (_, store') => { s1 with store := store', saves := s.saves + 1 }
    | .error _ =>
      -- the storage exception escapes to the outer catch, which sets the
      -- error state; its message is environment-specific
      { s1 with analysisState := .error, errorMsg := some "Analysis failed",
                saves := s.saves + 1, aborted := true }
  | .error m => { s with analysisState := .error, errorMsg := some m }

/-- The `for await` loop over decoded events; once an exception has escaped
(`aborted`), no further event is processed. -/
def processEvents (env : Env) (s : HomeState) : List SSEEvent → HomeState
  | [] => s
  | e :: es => if s.aborted then s else processEvents env (processEvent env s e) es

/-- Event classifiers used to state the claims. -/
def SSEEvent.isAnswerEvent : SSEEvent → Bool
  | .answer _ _ _ => true
  | _ => false

def SSEEvent.isCompleteEvent : SSEEvent → Bool
  | .complete _ _ _ _ => true
  | _ => false

/-! ### Phased job event loop (src/unnamed/part_001 handleFileSelect)

This page variant additionally derives an `AnalysisPhase` from free-text
status messages via `message.includes(...)` checks, forces `keywords` on a
questions event and `complete` on a complete event, and tracks a
`processingIndices` set. -/

/-- The ordered phase set of the phased page variant. -/
inductive AnalysisPhase where
  | uploading
  | extracting
  | keywords
  | searching
  | analyzing
  | complete
deriving DecidableEq, Repr

/-- Position of a phase in the declared order
uploading < extracting < keywords < searching < analyzing < complete. -/
def phaseRank : AnalysisPhase → Nat
  | .uploading => 0
  | .extracting => 1
  | .keywords => 2
  | .searching => 3
  | .analyzing => 4
  | .complete => 5

/-- Char-list prefix test (the inner step of JS `String.includes`). -/
def startsWithL : List Char → List Char → Bool
  | _, [] => true
  | [], _ :: _ => false
  | a :: as, b :: bs => a == b && startsWithL as bs

/-- Substring occurrence on char lists. -/
def containsL : List Char → List Char → Bool
  | [], pat => pat.isEmpty
  | hay@(_ :: rest), pat => startsWithL hay pat || containsL rest pat

/-- JS `s.includes(pat)` (case-sensitive substring test). -/
def jsIncludes (s pat : String) : Bool :=
  containsL s.data pat.data

/-- The `case "status"` if/else-if keyword chain of part_001: the phase the
handler stores after a status message, falling back to the current phase
when no keyword matches. -/
def inferPhaseFromStatus (m : String) (cur : AnalysisPhase) : AnalysisPhase :=
  if jsIncludes m "Extracting questions" then .extracting
  else if jsIncludes m "Extracting keywords" || jsIncludes m "keywords" then .keywords
  else if jsIncludes m "Searching" || jsIncludes m "search" then .searching
  else if jsIncludes m "Analyzing compliance" || jsIncludes m "compliance" then .analyzing
  else cur

namespace Phased

/-- State of the part_001 event loop: `HomeState` plus the derived phase and
the `processingIndices` set (a `Set<number>`, modelled as a duplicate-free
list). -/
structure PState where
  analysisState : AnalysisState
  phase : AnalysisPhase
  status : String
  questions : List String
  answers : List (Int × ComplianceAnswer)
  progress : Option AnalysisProgress
  errorMsg : Option String
  currentFilename : String
  store : List AnalysisHistoryItem
  saves : Nat
  processingIndices : List Int
  aborted : Bool
deriving DecidableEq, Repr

/-- State set up by the phased `handleFileSelect` before the loop starts. -/
def initPState (filename : String) (store : List AnalysisHistoryItem) : PState :=
  { analysisState := .analyzing, phase := .uploading,
    status := "Uploading file...", questions := [], answers := [],
    progress := none, errorMsg := none, currentFilename := filename,
    store := store, saves := 0, processingIndices := [], aborted := false }

/-- One iteration of the `switch (event.type)` of part_001's
`handleFileSelect`. -/
def processEvent (env : Env) (s : PState) : SSEEvent → PState
  | .status m =>
    { s with status := m, phase := inferPhaseFromStatus m s.phase }
  | .questions qs t =>
    { s with questions := qs, phase := .keywords,
             progress := some
               { answered := 0, total := t, met := 0, not_met := 0,
                 partialCount := 0 },
             processingIndices := [] }
  | .answer i a pr =>
    { s with answers := setKey i a s.answers, progress := some pr,
             processingIndices := s.processingIndices.filter (fun j => j ≠ i) }
  | .complete t m nm p =>
    let forced : AnalysisProgress :=
      { answered := t, total := t, met := m, not_met := nm, partialCount := p }
    let s1 := { s with analysisState := .complete, phase := .complete,
                       progress := some forced, processingIndices := [] }
    let d : HistoryDraft :=
      { filename := s.currentFilename, totalQuestions := t, met := m,
        notMet := nm, partialCount := p, questions := s.questions,
        answers := s.answers }
    match saveToHistory (env.uuidOf s.saves) (env.nowOf s.saves)
        env.canStore s.store d with
    | .ok (_, store') => { s1 with store := store', saves := s.saves + 1 }
    | .error _ =>
      { s1 with analysisState := .error, errorMsg := some "Analysis failed",
                saves := s.saves + 1, aborted := true }
  | .error m => { s with analysisState := .error, errorMsg := some m }

/-- The phased `for await` loop. -/
def processEvents (env : Env) (s : PState) : List SSEEvent → PState
  | [] => s
  | e :: es => if s.aborted then s else processEvents env (processEvent env s e) es

end Phased

/-! ### Claim theorems -/

/-- C1: for every byte stream and every way of splitting it into chunks
(including mid-record splits), the decoder loop of `analyzeStream` yields
exactly the same event sequence as delivering all bytes in one chunk.
Stated for an arbitrary JSON parse function `jp`, so it covers every valid
record sequence. -/
theorem analyzeStream_chunking_invariant {E : Type} (jp : List Nat → Option E)
    (cs : List (List Nat)) :
    processChunks (parseLine jp) [] cs = processChunks (parseLine jp) [] [cs.flatten] := by
  rw [processChunks_eq_decodeAll (parseLine jp) cs [] (by simp),
    processChunks_eq_decodeAll (parseLine jp) [cs.flatten] [] (by simp)]
  simp

theorem splitOnNl_encodeRecords {ls : List (List Nat)} (h : ∀ l ∈ ls, 10 ∉ l) :
    splitOnNl (encodeRecords ls) = ls ++ [[]] := by
  induction ls with
  | nil => rfl
  | cons l ls ih =>
    have hl : 10 ∉ l := h l (by simp)
    have hrest : ∀ x ∈ ls, 10 ∉ x := fun x hx => h x (by simp [hx])
    have henc : encodeRecords (l :: ls) = l ++ (10 :: encodeRecords ls) := by
      simp [encodeRecords]
    rw [henc, splitOnNl_append, splitOnNl_eq_single hl, splitOnNl_cons_nl, ih hrest]
    simp [glueHead]

/-- C8: a single record that fails structured parsing is dropped and every
other record's event is still yielded: decoding the framed stream with the
malformed record present equals the parse of all the other records, with no
error and no early termination. -/
theorem malformed_record_dropped {E : Type} (jp : List Nat → Option E)
    (as bs : List (List Nat)) (bad : List Nat)
    (hfree : ∀ l ∈ as ++ bad :: bs, 10 ∉ l)
    (hbad : parseLine jp bad = none) :
    processChunks (parseLine jp) [] [encodeRecords (as ++ bad :: bs)] =
      (as ++ bs).filterMap (parseLine jp) := by
  rw [processChunks_eq_decodeAll (parseLine jp) _ [] (by simp)]
  simp only [List.flatten_cons, List.flatten_nil, List.nil_append, List.append_nil]
  rw [decodeAll, splitOnNl_encodeRecords hfree]
  rw [show (as ++ bad :: bs) ++ [([] : List Nat)] =
    (as ++ bad :: bs) ++ [[]] from rfl, List.dropLast_concat]
  simp [List.filterMap_append, List.filterMap_cons, hbad]

/-- Witness for C8 at a concrete stream: records `"data: A"`, a malformed
`"x"`, `"data: B"`; the head-byte parser yields 65 and 66 and skips the
malformed record. -/
theorem malformed_record_dropped_witness :
    (∀ l ∈ [[100, 97, 116, 97, 58, 32, 65]] ++
        [120] :: [[100, 97, 116, 97, 58, 32, 66]], (10 : Nat) ∉ l) ∧
    parseLine (fun l : List Nat => l.head?) [120] = none ∧
    processChunks (parseLine (fun l : List Nat => l.head?)) []
        [encodeRecords ([[100, 97, 116, 97, 58, 32, 65]] ++
          [120] :: [[100, 97, 116, 97, 58, 32, 66]])] =
      ([[100, 97, 116, 97, 58, 32, 65]] ++ [[100, 97, 116, 97, 58, 32, 66]]).filterMap
        (parseLine (fun l : List Nat => l.head?)) :=
  ⟨by decide, by decide,
    malformed_record_dropped (fun l => l.head?) _ _ _ (by decide) (by decide)⟩

theorem take_append_take {α : Type} (l₁ l₂ : List α) :
    ∀ {n m : Nat}, n ≤ m → (l₁ ++ l₂.take m).take n = (l₁ ++ l₂).take n := by
  induction l₁ with
  | nil =>
    intro n m h
    simp [List.take_take, Nat.min_eq_left h]
  | cons a l₁ ih =>
    intro n m h
    cases n with
    | zero => simp
    | succ n =>
      simp only [List.cons_append, List.take_succ_cons]
      rw [ih (Nat.le_of_succ_le h)]

theorem appendRun_eq (canStore : List AnalysisHistoryItem → Bool)
    (hc : ∀ l, canStore l = true) :
    ∀ (items : List (String × String × HistoryDraft))
      (store : List AnalysisHistoryItem), items ≠ [] →
      appendRun canStore items store =
        ((items.map (fun x => mkHistoryItem x.1 x.2.1 x.2.2)).reverse ++ store).take 50 := by
  intro items
  induction items with
  | nil => intro store h; exact absurd rfl h
  | cons x items ih =>
    rintro store -
    obtain ⟨u, ts, d⟩ := x
    have hstep : appendRun canStore ((u, ts, d) :: items) store =
        appendRun canStore items ((mkHistoryItem u ts d :: store).take 50) := by
      simp [appendRun, saveToHistory, getHistory, MAX_HISTORY_ITEMS, hc]
    rw [hstep]
    cases items with
    | nil => simp [appendRun]
    | cons y items' =>
      rw [ih _ (by simp), take_append_take _ _ (le_refl 50)]
      simp [List.append_assoc]

/-- Positive-length `take` of a cons keeps the head. -/
theorem head?_take_cons {α : Type} (a : α) (l : List α) {n : Nat} (h : 0 < n) :
    ((a :: l).take n).head? = some a := by
  cases n with
  | zero => omega
  | succ n => simp [List.take_succ_cons]

/-- C6: after more than 50 sequential appends (from any starting
collection, with the storage accepting every write), `getHistory` returns
exactly the 50 most recently appended entries, most-recent-first; each
single insertion is head-insert plus tail-eviction at the cap of 50. -/
theorem history_cap_fifty (canStore : List AnalysisHistoryItem → Bool)
    (hc : ∀ l, canStore l = true)
    (items : List (String × String × HistoryDraft))
    (store : List AnalysisHistoryItem) (hk : 50 < items.length) :
    getHistory (appendRun canStore items store) =
        ((items.map (fun x => mkHistoryItem x.1 x.2.1 x.2.2)).reverse).take 50 ∧
      (getHistory (appendRun canStore items store)).length = 50 ∧
      (∀ (u ts : String) (d : HistoryDraft) (st : List AnalysisHistoryItem),
        saveToHistory u ts canStore st d =
          .ok (mkHistoryItem u ts d, (mkHistoryItem u ts d :: getHistory st).take 50)) := by
  have hne : items ≠ [] := by
    intro h
    rw [h] at hk
    simp at hk
  have hlen : 50 ≤ ((items.map (fun x => mkHistoryItem x.1 x.2.1 x.2.2)).reverse).length := by
    simp
    omega
  have hmain : getHistory (appendRun canStore items store) =
      ((items.map (fun x => mkHistoryItem x.1 x.2.1 x.2.2)).reverse).take 50 := by
    rw [getHistory, appendRun_eq canStore hc items store hne,
      List.take_append_of_le_length hlen]
  refine ⟨hmain, ?_, ?_⟩
  · rw [hmain]
    simp
    omega
  · intro u ts d st
    simp [saveToHistory, getHistory, MAX_HISTORY_ITEMS, hc]

/-- A sample history draft used by concrete witnesses. -/
def sampleDraft : HistoryDraft :=
  { filename := "audit.pdf", totalQuestions := 2, met := 1, notMet := 1,
    partialCount := 0, questions := ["Is encryption used?", "Is MFA enforced?"],
    answers := [] }

/-- Witness for C6 at 51 concrete appends into an empty store with an
always-accepting storage. -/
theorem history_cap_fifty_witness :
    (∀ l : List AnalysisHistoryItem, (fun _ : List AnalysisHistoryItem => true) l = true) ∧
    50 < (List.replicate 51 ("u", "t", sampleDraft)).length ∧
    (getHistory (appendRun (fun _ => true) (List.replicate 51 ("u", "t", sampleDraft)) []) =
        (((List.replicate 51 ("u", "t", sampleDraft)).map
          (fun x => mkHistoryItem x.1 x.2.1 x.2.2)).reverse).take 50 ∧
      (getHistory (appendRun (fun _ => true)
        (List.replicate 51 ("u", "t", sampleDraft)) [])).length = 50 ∧
      (∀ (u ts : String) (d : HistoryDraft) (st : List AnalysisHistoryItem),
        saveToHistory u ts (fun _ => true) st d =
          .ok (mkHistoryItem u ts d, (mkHistoryItem u ts d :: getHistory st).take 50))) :=
  ⟨fun _ => rfl, by simp,
    history_cap_fifty (fun _ => true) (fun _ => rfl) _ [] (by simp)⟩

/-- C7 counterexample: with a storage that rejects both the capped write
and the 10-entry retry, `saveToHistory` raises (the retry `setItem` is not
inside a try/catch), so the operation can fail the caller — refuting the
claim that no exception ever propagates. -/
theorem saveToHistory_throws_on_double_rejection :
    saveToHistory "id-0" "2026-01-01T00:00:00Z" (fun _ => false) [] sampleDraft =
      .error () := rfl

/-- C7 amended: on a capacity rejection `saveToHistory` retries once with
the 10 newest entries, the new entry at the head; when the retry write is
accepted the caller sees success and the newest entry is retained — but if
the retry is also rejected the exception propagates to the caller. -/
theorem saveToHistory_retry_keeps_newest (u ts : String)
    (canStore : List AnalysisHistoryItem → Bool)
    (store : List AnalysisHistoryItem) (d : HistoryDraft)
    (h1 : canStore ((mkHistoryItem u ts d :: store).take 50) = false)
    (h2 : canStore (((mkHistoryItem u ts d :: store).take 50).take 10) = true) :
    saveToHistory u ts canStore store d =
        .ok (mkHistoryItem u ts d, ((mkHistoryItem u ts d :: store).take 50).take 10) ∧
      ((((mkHistoryItem u ts d :: store).take 50).take 10).head? =
        some (mkHistoryItem u ts d)) := by
  constructor
  · simp only [saveToHistory, getHistory, MAX_HISTORY_ITEMS, h1, h2]
    simp
  · rw [List.take_take]
    exact head?_take_cons _ _ (by omega)

/-- Witness for C7's amended theorem: a storage that accepts only lists of
at most 10 entries, against a store already holding 10 entries. -/
theorem saveToHistory_retry_keeps_newest_witness :
    ((fun l : List AnalysisHistoryItem => decide (l.length ≤ 10))
        ((mkHistoryItem "u" "t" sampleDraft ::
          List.replicate 10 (mkHistoryItem "v" "t" sampleDraft)).take 50) = false) ∧
    ((fun l : List AnalysisHistoryItem => decide (l.length ≤ 10))
        (((mkHistoryItem "u" "t" sampleDraft ::
          List.replicate 10 (mkHistoryItem "v" "t" sampleDraft)).take 50).take 10) = true) ∧
    (saveToHistory "u" "t" (fun l => decide (l.length ≤ 10))
        (List.replicate 10 (mkHistoryItem "v" "t" sampleDraft)) sampleDraft =
        .ok (mkHistoryItem "u" "t" sampleDraft,
          ((mkHistoryItem "u" "t" sampleDraft ::
            List.replicate 10 (mkHistoryItem "v" "t" sampleDraft)).take 50).take 10) ∧
      ((((mkHistoryItem "u" "t" sampleDraft ::
          List.replicate 10 (mkHistoryItem "v" "t" sampleDraft)).take 50).take 10).head? =
        some (mkHistoryItem "u" "t" sampleDraft))) :=
  ⟨by decide, by decide,
    saveToHistory_retry_keeps_newest "u" "t" _ _ _ (by decide) (by decide)⟩

/-- Positive-length `take` of a cons decomposes as head plus shorter take. -/
theorem take_cons_pos {α : Type} (a : α) (l : List α) {n : Nat} (h : 0 < n) :
    (a :: l).take n = a :: l.take (n - 1) := by
  cases n with
  | zero => omega
  | succ n => simp [List.take_succ_cons]

/-- C9: round trip through the history store — when the capped write is
accepted and the freshly drawn UUID does not collide with any stored id
(the external generator's freshness), the saved collection contains an
entry equal to the draft in every payload field, carrying the fresh
id/timestamp, and that id is distinct from every other entry's id. -/
theorem history_round_trip (u ts : String)
    (canStore : List AnalysisHistoryItem → Bool)
    (store : List AnalysisHistoryItem) (d : HistoryDraft)
    (hok : canStore ((mkHistoryItem u ts d :: getHistory store).take 50) = true)
    (hfresh : ∀ j ∈ getHistory store, j.id ≠ u) :
    saveToHistory u ts canStore store d =
        .ok (mkHistoryItem u ts d, (mkHistoryItem u ts d :: getHistory store).take 50) ∧
      mkHistoryItem u ts d ∈ getHistory ((mkHistoryItem u ts d :: getHistory store).take 50) ∧
      ((mkHistoryItem u ts d).filename = d.filename ∧
        (mkHistoryItem u ts d).totalQuestions = d.totalQuestions ∧
        (mkHistoryItem u ts d).met = d.met ∧
        (mkHistoryItem u ts d).notMet = d.notMet ∧
        (mkHistoryItem u ts d).partialCount = d.partialCount ∧
        (mkHistoryItem u ts d).questions = d.questions ∧
        (mkHistoryItem u ts d).answers = d.answers) ∧
      ∀ j ∈ getHistory ((mkHistoryItem u ts d :: getHistory store).take 50),
        j ≠ mkHistoryItem u ts d → j.id ≠ (mkHistoryItem u ts d).id := by
  have hok' : canStore ((mkHistoryItem u ts d :: store).take 50) = true := hok
  refine ⟨?_, ?_, ⟨rfl, rfl, rfl, rfl, rfl, rfl, rfl⟩, ?_⟩
  · simp only [saveToHistory, getHistory, MAX_HISTORY_ITEMS, hok']
    simp
  · rw [getHistory, take_cons_pos _ _ (by omega)]
    exact List.mem_cons_self _ _
  · intro j hj hne
    rw [getHistory, take_cons_pos _ _ (by omega)] at hj
    rcases List.mem_cons.mp hj with h | h
    · exact absurd h hne
    · exact hfresh j (List.take_subset _ _ h)

/-- Witness for C9 at a concrete draft against an empty store. -/
theorem history_round_trip_witness :
    ((fun _ : List AnalysisHistoryItem => true)
        ((mkHistoryItem "id-1" "2026-01-01T00:00:00Z" sampleDraft :: getHistory []).take 50) = true) ∧
    (∀ j ∈ getHistory ([] : List AnalysisHistoryItem), j.id ≠ "id-1") ∧
    (saveToHistory "id-1" "2026-01-01T00:00:00Z" (fun _ => true) [] sampleDraft =
        .ok (mkHistoryItem "id-1" "2026-01-01T00:00:00Z" sampleDraft,
          (mkHistoryItem "id-1" "2026-01-01T00:00:00Z" sampleDraft :: getHistory []).take 50) ∧
      mkHistoryItem "id-1" "2026-01-01T00:00:00Z" sampleDraft ∈
        getHistory ((mkHistoryItem "id-1" "2026-01-01T00:00:00Z" sampleDraft :: getHistory []).take 50) ∧
      ((mkHistoryItem "id-1" "2026-01-01T00:00:00Z" sampleDraft).filename = sampleDraft.filename ∧
        (mkHistoryItem "id-1" "2026-01-01T00:00:00Z" sampleDraft).totalQuestions = sampleDraft.totalQuestions ∧
        (mkHistoryItem "id-1" "2026-01-01T00:00:00Z" sampleDraft).met = sampleDraft.met ∧
        (mkHistoryItem "id-1" "2026-01-01T00:00:00Z" sampleDraft).notMet = sampleDraft.notMet ∧
        (mkHistoryItem "id-1" "2026-01-01T00:00:00Z" sampleDraft).partialCount = sampleDraft.partialCount ∧
        (mkHistoryItem "id-1" "2026-01-01T00:00:00Z" sampleDraft).questions = sampleDraft.questions ∧
        (mkHistoryItem "id-1" "2026-01-01T00:00:00Z" sampleDraft).answers = sampleDraft.answers) ∧
      ∀ j ∈ getHistory ((mkHistoryItem "id-1" "2026-01-01T00:00:00Z" sampleDraft :: getHistory []).take 50),
        j ≠ mkHistoryItem "id-1" "2026-01-01T00:00:00Z" sampleDraft →
          j.id ≠ (mkHistoryItem "id-1" "2026-01-01T00:00:00Z" sampleDraft).id) :=
  ⟨rfl, by simp [getHistory],
    history_round_trip "id-1" "2026-01-01T00:00:00Z" (fun _ => true) [] sampleDraft
      rfl (by simp [getHistory])⟩

/-- A concrete environment used by closed counterexamples and witnesses. -/
def env0 : Env :=
  { uuidOf := fun _ => "uuid-0", nowOf := fun _ => "2026-01-01T00:00:00Z",
    canStore := fun _ => true }

/-- A sample compliance answer used by concrete witnesses. -/
def sampleAnswer : ComplianceAnswer :=
  { question := "Is encryption used?", status := .met,
    evidence := some "AES-256 at rest", source := some "security-policy.pdf",
    page := some 3, confidence := 9 / 10, reasoning := "Policy states it." }

/-- A second, distinct sample answer (used to exhibit overwriting). -/
def sampleAnswerB : ComplianceAnswer :=
  { question := "Is encryption used?", status := .notMet,
    evidence := none, source := none, page := none, confidence := 1 / 2,
    reasoning := "No evidence found." }

theorem processEvent_answer_aborted (env : Env) (s : HomeState)
    (i : Int) (a : ComplianceAnswer) (pr : AnalysisProgress) :
    (processEvent env s (.answer i a pr)).aborted = s.aborted := rfl

/-- C2: any sequence of answer events followed by a complete event carrying
totals summing to `t` leaves the progress snapshot forced to
`{answered := t, total := t, met := m, not_met := nm, partialCount := p}`,
no matter which answer events arrived, were duplicated, or were lost. -/
theorem complete_event_forces_final_snapshot (env : Env) (es : List SSEEvent) :
    ∀ s : HomeState, s.aborted = false →
      (∀ e ∈ es, e.isAnswerEvent = true) →
      ∀ t m nm p : Nat, m + p + nm = t →
        (processEvents env s (es ++ [.complete t m nm p])).progress =
          some { answered := t, total := t, met := m, not_met := nm,
                 partialCount := p } := by
  induction es with
  | nil =>
    intro s hab _ t m nm p _
    simp only [List.nil_append, processEvents, hab, Bool.false_eq_true, if_false]
    simp only [processEvent]
    split <;> rfl
  | cons e es ih =>
    intro s hab hans t m nm p hsum
    have he := hans e (by simp)
    cases e with
    | answer i a pr =>
      simp only [List.cons_append, processEvents, hab, Bool.false_eq_true, if_false]
      exact ih _ ((processEvent_answer_aborted env s i a pr).trans hab)
        (fun e' h => hans e' (by simp [h])) t m nm p hsum
    | status m' => simp [SSEEvent.isAnswerEvent] at he
    | questions qs tt => simp [SSEEvent.isAnswerEvent] at he
    | complete a b c dd => simp [SSEEvent.isAnswerEvent] at he
    | error m' => simp [SSEEvent.isAnswerEvent] at he

/-- Witness for C2: no answer events, then `complete{total 2, met 1,
not_met 1, partial 0}`, starting from the freshly initialized state. -/
theorem complete_event_forces_final_snapshot_witness :
    (initHomeState "audit.pdf" []).aborted = false ∧
    (∀ e ∈ ([] : List SSEEvent), e.isAnswerEvent = true) ∧
    1 + 0 + 1 = 2 ∧
    (processEvents env0 (initHomeState "audit.pdf" [])
        ([] ++ [.complete 2 1 1 0])).progress =
      some { answered := 2, total := 2, met := 1, not_met := 1,
             partialCount := 0 } :=
  ⟨rfl, by simp, rfl,
    complete_event_forces_final_snapshot env0 [] (initHomeState "audit.pdf" [])
      rfl (by simp) 2 1 1 0 rfl⟩

/-- C4 counterexample: after `questions{[one question], total 1}`, an
answer event with index 5 — outside the established range — is NOT
ignored: it changes the stored answer set. -/
theorem out_of_range_answer_installed :
    (processEvent env0
        (processEvent env0 (initHomeState "audit.pdf" [])
          (.questions ["Is encryption used?"] 1))
        (.answer 5 sampleAnswer
          { answered := 1, total := 1, met := 1, not_met := 0,
            partialCount := 0 })).answers ≠
      (processEvent env0 (initHomeState "audit.pdf" [])
        (.questions ["Is encryption used?"] 1)).answers :=
  fun h => List.noConfusion h

/-- C4 amended: an answer event installs its answer at the event's index
unconditionally — even when the index lies outside the range established by
the questions event — while the question list itself is unchanged. -/
theorem answer_event_installs_unconditionally (env : Env) (s : HomeState)
    (i : Int) (a : ComplianceAnswer) (pr : AnalysisProgress) :
    (processEvent env s (.answer i a pr)).answers = setKey i a s.answers ∧
    (processEvent env s (.answer i a pr)).questions = s.questions :=
  ⟨rfl, rfl⟩

theorem getKey_setKey (i : Int) (a : ComplianceAnswer)
    (m : List (Int × ComplianceAnswer)) : getKey i (setKey i a m) = some a := by
  induction m with
  | nil => simp [setKey, getKey]
  | cons p rest ih =>
    obtain ⟨k, v⟩ := p
    by_cases h : k = i <;> simp [setKey, getKey, h, ih]

/-- C10: a later answer event for an index that already holds an answer
overwrites the stored answer and replaces the progress snapshot with the
event's embedded snapshot — latest event wins, the duplicate is not
ignored. -/
theorem duplicate_answer_overwrites (env : Env) (s : HomeState) (i : Int)
    (a0 a : ComplianceAnswer) (pr : AnalysisProgress)
    (hdup : getKey i s.answers = some a0) :
    getKey i ((processEvent env s (.answer i a pr)).answers) = some a ∧
    (processEvent env s (.answer i a pr)).progress = some pr :=
  ⟨getKey_setKey i a s.answers, rfl⟩

/-- Witness for C10 at a state already holding an answer at index 0,
overwritten by a different answer. -/
theorem duplicate_answer_overwrites_witness :
    getKey 0 [(0, sampleAnswer)] = some sampleAnswer ∧
    (getKey 0 ((processEvent env0
        { initHomeState "audit.pdf" [] with answers := [(0, sampleAnswer)] }
        (.answer 0 sampleAnswerB
          { answered := 1, total := 2, met := 0, not_met := 1,
            partialCount := 0 })).answers) = some sampleAnswerB ∧
      (processEvent env0
        { initHomeState "audit.pdf" [] with answers := [(0, sampleAnswer)] }
        (.answer 0 sampleAnswerB
          { answered := 1, total := 2, met := 0, not_met := 1,
            partialCount := 0 })).progress =
        some { answered := 1, total := 2, met := 0, not_met := 1,
               partialCount := 0 }) :=
  ⟨rfl, duplicate_answer_overwrites env0 _ 0 sampleAnswer sampleAnswerB _ rfl⟩

/-- C5 counterexample: the event loop does not stop at a terminal event, so
a stream sending `complete` and then `error` ends the job in the error
state, yet a history entry was written during the `complete` event — the
persisted collection after the failed job differs from the one before it. -/
theorem failed_job_with_prior_complete_writes_history :
    (processEvents env0 (initHomeState "audit.pdf" [])
        [.complete 2 1 1 0, .error "LLM quota exceeded"]).analysisState =
      .error ∧
    (processEvents env0 (initHomeState "audit.pdf" [])
        [.complete 2 1 1 0, .error "LLM quota exceeded"]).store ≠
      (initHomeState "audit.pdf" []).store :=
  ⟨rfl, fun h => List.noConfusion h⟩

/-- C5 amended: a job during which no complete event is processed — it
fails via an error event, via a transport error after any event prefix, or
before any event arrives — leaves the persisted history collection exactly
as it was before the job started. -/
theorem no_complete_no_history_write (env : Env) (es : List SSEEvent) :
    ∀ s : HomeState, (∀ e ∈ es, e.isCompleteEvent = false) →
      (processEvents env s es).store = s.store := by
  induction es with
  | nil => intro s _; rfl
  | cons e es ih =>
    intro s hnc
    have h1 := hnc e (by simp)
    have h2 : ∀ e' ∈ es, e'.isCompleteEvent = false :=
      fun e' h => hnc e' (by simp [h])
    by_cases hab : s.aborted
    · simp [processEvents, hab]
    · have hstep : (processEvent env s e).store = s.store := by
        cases e with
        | status m => rfl
        | questions qs t => rfl
        | answer i a pr => rfl
        | complete t m nm p => simp [SSEEvent.isCompleteEvent] at h1
        | error m => rfl
      simp only [processEvents]
      rw [if_neg hab, ih _ h2, hstep]

/-- Witness for C5's amended theorem: a job failing through
`error{"LLM quota exceeded"}` writes nothing to history. -/
theorem no_complete_no_history_write_witness :
    (∀ e ∈ [SSEEvent.error "LLM quota exceeded"], e.isCompleteEvent = false) ∧
    (processEvents env0 (initHomeState "audit.pdf" [])
        [.error "LLM quota exceeded"]).store =
      (initHomeState "audit.pdf" []).store :=
  ⟨by simp [SSEEvent.isCompleteEvent],
    no_complete_no_history_write env0 [.error "LLM quota exceeded"]
      (initHomeState "audit.pdf" []) (by simp [SSEEvent.isCompleteEvent])⟩

theorem phaseRank_le_five (ph : AnalysisPhase) : phaseRank ph ≤ 5 := by
  cases ph <;> simp [phaseRank]

/-- C3 counterexample: in the phased event loop, a status message matching
an earlier phase's keywords, arriving after a later phase was reached,
moves the phase backward while the job is not in the error state —
refuting monotonicity. -/
theorem stale_status_moves_phase_backward :
    phaseRank (Phased.processEvents env0 (Phased.initPState "audit.pdf" [])
        [.status "Analyzing compliance...",
         .status "Extracting questions from document..."]).phase <
      phaseRank (Phased.processEvents env0 (Phased.initPState "audit.pdf" [])
        [.status "Analyzing compliance..."]).phase ∧
    (Phased.processEvents env0 (Phased.initPState "audit.pdf" [])
        [.status "Analyzing compliance...",
         .status "Extracting questions from document..."]).analysisState ≠
      .error := by
  decide

/-- C3 amended: the phase is monotonic non-decreasing under answer,
complete and error events, but a status event sets the phase to the keyword
table's match for that message alone (unclamped — an earlier-phase match
moves the phase backward), and a questions event forces `keywords`
regardless of the current phase. -/
theorem phase_monotonic_except_unclamped_inference (env : Env)
    (s : Phased.PState) (e : SSEEvent) :
    phaseRank s.phase ≤ phaseRank (Phased.processEvent env s e).phase ∨
      (∃ m, e = .status m ∧
        (Phased.processEvent env s e).phase = inferPhaseFromStatus m s.phase) ∨
      (∃ qs t, e = .questions qs t ∧
        (Phased.processEvent env s e).phase = .keywords) := by
  cases e with
  | status m => exact Or.inr (Or.inl ⟨m, rfl, rfl⟩)
  | questions qs t => exact Or.inr (Or.inr ⟨qs, t, rfl, rfl⟩)
  | answer i a pr => exact Or.inl (le_refl _)
  | complete t m nm p =>
    left
    have hph : (Phased.processEvent env s (.complete t m nm p)).phase =
        .complete := by
      simp only [Phased.processEvent]
      split <;> rfl
    rw [hph]
    exact phaseRank_le_five s.phase
  | error m => exact Or.inl (le_refl _)
